import Mathlib

/-!
Shallow embedding of the Doppelkopf game engine of `src/services/game_handler.py`
(the revision exercised by the repository's tests and imported by the service
wiring), together with `src/services/data_structures.py`.  Python dicts keyed by
player uuid are embedded as association lists; all states built by the engine
have pairwise-distinct keys, where the embedding and a Python dict agree.
Outcomes the source draws from Python's global `random` (the shuffled deck, the
first player, the two uuids sampled for team "re") are passed in explicitly as
a `RandChoices` record, as is the clock used for the timestamps.
-/

/-- `create_card` record (`data_structures.py`): suit, rank, point value, trump flag. -/
structure Card where
  suit : String
  rank : String
  value : Nat
  is_trump : Bool
deriving DecidableEq, Repr

/-- `create_player` record (`data_structures.py`). -/
structure Player where
  session : String
  name : String
  type : String
  uuid : String
deriving DecidableEq, Repr

/-- `create_announcement` record (`data_structures.py`); the timestamp is a tick count. -/
structure Announcement where
  player_id : String
  type : String
  card_number : Nat
  timestamp : Nat
deriving DecidableEq, Repr

/-- One `{"player": ..., "card": ...}` entry appended to a trick by `play_trick`. -/
structure TrickEntry where
  player : String
  card : Card
deriving DecidableEq, Repr

/-- Player hands: the `cards` dict mapping uuid to the remaining hand. -/
abbrev Hands := List (String × List Card)

/-- The game-state dict built by `create_initial_game_state`.  The
`eligible_announcements` dict is created empty and never touched, so it is
embedded as a list of (player, announcement-type) pairs that stays empty. -/
structure Game where
  cards : Hands
  current_player : String
  eligible_cards : List Card
  mode : String
  phase : String
  eligible_announcements : List (String × String)
  player_teams : List (String × String)
  announcements : List Announcement
  tricks : List (List TrickEntry)
  score : List (String × Nat)
  start_time : Nat
  end_time : Option Nat
  players : List Player
  final_score : List (String × Nat)
deriving DecidableEq, Repr

/-- The table dict.  `num_rounds` is optional because the source reads it with
`table.get("num_rounds", 1)`; `none` stands for an absent key. -/
structure Table where
  tablename : String
  players : List Player
  rounds : List Game
  status : String
  num_rounds : Option Nat
deriving DecidableEq, Repr

/-- `table.get("num_rounds", 1)`. -/
def numRounds (t : Table) : Nat := t.num_rounds.getD 1

/-- Dict lookup `d[k]`: first entry with key `k`.  The source raises `KeyError`
on a missing key; every state built by the engine keeps all four uuids present,
so the lookup is total here and `handsGet` defaults to the empty hand. -/
def dictGet (d : List (String × α)) (k : String) : Option α :=
  (d.find? (fun kv => kv.1 == k)).map (fun kv => kv.2)

/-- `game["cards"][k]` for the hands dict. -/
def handsGet (d : Hands) (k : String) : List Card :=
  (dictGet d k).getD []

/-- Dict update `{**d, k: v}`: replaces the value at an existing key in place,
otherwise appends the new binding at the end (Python dict insertion order). -/
def dictSet (d : List (String × α)) (k : String) (v : α) : List (String × α) :=
  if d.any (fun kv => kv.1 == k) then
    d.map (fun kv => if kv.1 == k then (k, v) else kv)
  else
    d ++ [(k, v)]

/-- Random outcomes the source draws from Python's global `random`, plus the
clock: `shuffled` is the result of `shuffle_cards(create_cards())` (a
permutation of the fresh deck, drawn by `random.sample(cards, len(cards))`),
`first_uuid` the uuid drawn by `determine_first_player`, `re_sample` the two
distinct uuids drawn by `random.sample(player_uuids, 2)` inside `assign_teams`,
and `now` the value `datetime.now()` is embedded as. -/
structure RandChoices where
  shuffled : List Card
  first_uuid : String
  re_sample : String × String
  now : Nat

/-- The suit tuple of `create_cards`. -/
def suits : List String := ["hearts", "spades", "diamonds", "clubs"]

/-- The (rank, value) tuple of `create_cards`: no "nine", 40 cards total. -/
def ranksValues : List (String × Nat) :=
  [("ace", 11), ("ten", 10), ("king", 4), ("queen", 3), ("jack", 2)]

/-- `create_card` (`data_structures.py`). -/
def create_card (suit rank : String) (value : Nat) (is_trump : Bool) : Card :=
  { suit := suit, rank := rank, value := value, is_trump := is_trump }

/-- `create_cards`: two copies of each (suit, rank) combination, trump iff
diamonds or the queen of clubs. -/
def create_cards : List Card :=
  (List.range 2).flatMap (fun _ =>
    suits.flatMap (fun suit =>
      ranksValues.map (fun rv =>
        create_card suit rv.1 rv.2
          (suit == "diamonds" || (suit == "clubs" && rv.1 == "queen")))))

/-- The slice loop of `distribute_cards`: player `i` (counting from the given
offset) receives `cards[i:i + share]`, i.e. `enumerate(uuids, start=0)` with the
slice taken at the bare enumeration index. -/
def distribute_go (cards : List Card) (share : Nat) : Nat → List Player → Hands
  | _, [] => []
  | i, p :: ps => (p.uuid, (cards.drop i).take share) :: distribute_go cards share (i + 1) ps

/-- `distribute_cards(cards, players)` (services revision): empty dict when either
input is empty, otherwise the dict comprehension
`{uuid: cards[i:i + len(cards) // len(players)] for i, uuid in enumerate(...)}`. -/
def distribute_cards (cards : List Card) (players : List Player) : Hands :=
  if players.isEmpty || cards.isEmpty then []
  else distribute_go cards (cards.length / players.length) 0 players

/-- `assign_teams` (services revision): the two sampled uuids become "re", every
other uuid "kontra"; the source performs no player-count validation. -/
def assign_teams (re_sample : String × String) (players : List Player) :
    List (String × String) :=
  let player_uuids := players.map Player.uuid
  player_uuids.map (fun u =>
    (u, if u == re_sample.1 || u == re_sample.2 then "re" else "kontra"))

/-- `all_teams_known`. -/
def all_teams_known (player_teams : List (String × String)) : Bool :=
  player_teams.all (fun kv => kv.2 != "unknown")

/-- `calculate_round_score`: a constant map, independent of its argument. -/
def calculate_round_score (_game : Game) : List (String × Nat) :=
  [("re", 2), ("kontra", 1)]

/-- `create_initial_game_state(players)`. -/
def create_initial_game_state (now : Nat) (players : List Player) : Game :=
  { cards := []
    current_player := ""
    eligible_cards := []
    mode := "normal"
    phase := "variant"
    eligible_announcements := []
    player_teams := players.map (fun p => (p.uuid, "unknown"))
    announcements := []
    tricks := []
    score := []
    start_time := now
    end_time := none
    players := players
    final_score := [] }

/-- `initialize_game`: deals `shuffle_cards(create_cards())` — whose outcome is
`rc.shuffled` — and installs the randomly drawn first player. -/
def initialize_game (rc : RandChoices) (game : Game) : Game :=
  { game with
    cards := distribute_cards rc.shuffled game.players
    current_player := rc.first_uuid }

/-- `handle_variant_phase`: always resolves to "normal" mode. -/
def handle_variant_phase (game : Game) : Game :=
  { game with mode := "normal" }

/-- `handle_poverty_phase`: a no-op passthrough. -/
def handle_poverty_phase (game : Game) : Game :=
  game

/-- `players_in_order[start_idx:] + players_in_order[:start_idx]` where
`start_idx = players_in_order.index(x)` (first occurrence; the source raises
`ValueError` when `x` is absent, a case no engine state produces — `indexOf`
then returns the length, leaving the list unrotated). -/
def rotateAt (l : List String) (x : String) : List String :=
  l.drop (l.indexOf x) ++ l.take (l.indexOf x)

/-- The body of the `for player_id in players_in_order` loop of `play_trick`:
a player with an empty hand is silently skipped, otherwise their first card is
appended to the in-progress trick and removed from their hand. -/
def trickStep (acc : List TrickEntry × Hands) (player_id : String) :
    List TrickEntry × Hands :=
  match handsGet acc.2 player_id with
  | [] => acc
  | card :: rest => (acc.1 ++ [{ player := player_id, card := card }], dictSet acc.2 player_id rest)

/-- The `players_in_order` list of `play_trick`: all player uuids, rotated so
the current player comes first. -/
def trickOrder (game : Game) : List String :=
  rotateAt (game.players.map Player.uuid) game.current_player

/-- The (in-progress trick, updated hands) pair produced by the
`for player_id in players_in_order` loop of `play_trick`. -/
def trickRes (game : Game) : List TrickEntry × Hands :=
  (trickOrder game).foldl trickStep ([], game.cards)

/-- `play_trick(game, trick_number)` (services revision).  If the current
player's hand is empty the state is returned unchanged ("skip this trick").
Otherwise every player, in rotation order starting from the current player,
plays the first card of their hand (empty hands skipped); the next player is
the first one in that order still holding cards, defaulting to the current
player.  The source also binds `played_card`/`remaining_cards` from the current
player's hand but never uses them. -/
def play_trick (game : Game) (_trick_number : Nat) : Game :=
  if (handsGet game.cards game.current_player).isEmpty then game
  else
    { game with
      tricks := game.tricks ++ [(trickRes game).1]
      cards := (trickRes game).2
      current_player :=
        ((trickOrder game).find?
            (fun pid => !(handsGet (trickRes game).2 pid).isEmpty)).getD
          game.current_player }

/-- `play_all_tricks`: `reduce(play_trick, range(10), {**game, "phase": "playing"})`. -/
def play_all_tricks (game : Game) : Game :=
  (List.range 10).foldl play_trick { game with phase := "playing" }

/-- `finalize_game`. -/
def finalize_game (now : Nat) (game : Game) : Game :=
  { game with
    phase := "complete"
    score := calculate_round_score game
    final_score := calculate_round_score game
    end_time := some now }

/-- `create_updated_table` (services revision): append the finished round and
close the table once the configured round count is reached.  (The source first
normalizes a list-or-None `rounds` value to a tuple; `rounds` is always a list
here.) -/
def create_updated_table (table : Table) (game : Game) : Table :=
  { table with
    rounds := table.rounds ++ [game]
    status := if table.rounds.length + 1 < numRounds table then "waiting" else "closed" }

/-- The state `gameflow` builds before the phase pipeline: the initial game
state with teams assigned at the start. -/
def round_initial (rc : RandChoices) (players : List Player) : Game :=
  { create_initial_game_state rc.now players with
    player_teams := assign_teams rc.re_sample players }

/-- The first three phase functions of the `gameflow` pipeline:
`initialize_game`, `handle_variant_phase`, and the armut passthrough lambda
`g if g["mode"] != "armut" else handle_poverty_phase(g)`. -/
def round_before_tricks (rc : RandChoices) (players : List Player) : Game :=
  let g := handle_variant_phase (initialize_game rc (round_initial rc players))
  if g.mode == "armut" then handle_poverty_phase g else g

/-- The state after `k` of the 10 `play_trick` steps of `play_all_tricks`
(`play_trick` ignores its trick-number argument, so the first `k` steps of
`reduce(play_trick, range(10), ...)` equal a fold over `range k`). -/
def round_after_tricks (rc : RandChoices) (players : List Player) (k : Nat) : Game :=
  (List.range k).foldl play_trick { round_before_tricks rc players with phase := "playing" }

/-- `gameflow(table)`: the reduce over the phase-function list
`[initialize_game, handle_variant_phase, armut-lambda, play_all_tricks,
finalize_game]` applied to the initial state, folded back into the table by
`create_updated_table`. -/
def gameflow (rc : RandChoices) (table : Table) : Table :=
  create_updated_table table
    (finalize_game rc.now (play_all_tricks (round_before_tricks rc table.players)))

/-- `play_round(table, _)`: no-op on a closed table, else one `gameflow`. -/
def play_round (rc : RandChoices) (table : Table) (_ : Nat) : Table :=
  if table.status == "closed" then table else gameflow rc table

/-- `k` successive `play_round` steps, drawing the `i`-th round's randomness
from `rcs i`; `play_table_rounds` is this with `k = table.get("num_rounds", 1)`
(`reduce(play_round, range(num_rounds), table)`). -/
def advanceK (rcs : Nat → RandChoices) (table : Table) (k : Nat) : Table :=
  (List.range k).foldl (fun t i => play_round (rcs i) t i) table

/-- `play_table_rounds(table)` (services revision). -/
def play_table_rounds (rcs : Nat → RandChoices) (table : Table) : Table :=
  advanceK rcs table (numRounds table)

/-- Number of cards remaining across the hands of the given uuids. -/
def handsSum (hands : Hands) (uuids : List String) : Nat :=
  (uuids.map (fun u => (handsGet hands u).length)).sum

/-- Cards remaining across all players' hands of a game state. -/
def handsTotal (g : Game) : Nat :=
  handsSum g.cards (g.players.map Player.uuid)

/-- Cards recorded in the completed tricks of a game state. -/
def tricksTotal (g : Game) : Nat :=
  (g.tricks.map List.length).sum

/-- Total point value of all cards recorded in the completed tricks. -/
def trickPointsTotal (g : Game) : Nat :=
  (g.tricks.map (fun t => (t.map (fun e => e.card.value)).sum)).sum

/-! ### Concrete fixtures used by witnesses and counterexamples -/

/-- Concrete four-player table, as in the repository's tests. -/
def p1 : Player := { session := "s1", name := "P1", type := "human", uuid := "a" }

def p2 : Player := { session := "s2", name := "P2", type := "human", uuid := "b" }

def p3 : Player := { session := "s3", name := "P3", type := "human", uuid := "c" }

def p4 : Player := { session := "s4", name := "P4", type := "human", uuid := "d" }

def players4 : List Player := [p1, p2, p3, p4]

/-- Concrete randomness: the identity shuffle, first player "a", re-team ("a","b"). -/
def rc0 : RandChoices :=
  { shuffled := create_cards, first_uuid := "a", re_sample := ("a", "b"), now := 0 }

def rcs0 : Nat → RandChoices := fun _ => rc0

def table0 : Table :=
  { tablename := "t", players := players4, rounds := [], status := "waiting", num_rounds := none }

/-- A table configured for three rounds. -/
def table3 : Table :=
  { tablename := "t3", players := players4, rounds := [], status := "waiting",
    num_rounds := some 3 }

/-- An already-closed table. -/
def closedTable : Table :=
  { tablename := "tc", players := players4, rounds := [], status := "closed",
    num_rounds := some 1 }

/-- The single round appended to `table0` by `gameflow` under `rc0`. -/
def round0 : Game :=
  ((gameflow rc0 table0).rounds.getLast?).getD (create_initial_game_state 0 [])

/-- Four distinct concrete cards for the dealing counterexample. -/
def cHA : Card := create_card "hearts" "ace" 11 false

def cHT : Card := create_card "hearts" "ten" 10 false

def cSA : Card := create_card "spades" "ace" 11 false

def cST : Card := create_card "spades" "ten" 10 false

def deck4 : List Card := [cHA, cHT, cSA, cST]

def pX : Player := { session := "sx", name := "PX", type := "human", uuid := "x" }

def pY : Player := { session := "sy", name := "PY", type := "human", uuid := "y" }

def playersXY : List Player := [pX, pY]

/-- A mid-round state in which the current (required) player's hand is empty. -/
def gExhausted : Game :=
  { create_initial_game_state 0 players4 with
    cards := [("a", []), ("b", [cHA]), ("c", [cHT]), ("d", [cSA])]
    current_player := "a"
    phase := "playing" }

/-- Six distinct players, for the team-assignment counterexample. -/
def players6 : List Player :=
  [ { session := "t1", name := "Q1", type := "human", uuid := "u1" },
    { session := "t2", name := "Q2", type := "human", uuid := "u2" },
    { session := "t3", name := "Q3", type := "human", uuid := "u3" },
    { session := "t4", name := "Q4", type := "human", uuid := "u4" },
    { session := "t5", name := "Q5", type := "human", uuid := "u5" },
    { session := "t6", name := "Q6", type := "human", uuid := "u6" } ]

/-! ### Basic facts -/

theorem create_cards_length : create_cards.length = 40 := by decide

/-! ### C6: deck construction -/

/-- C6: `create_cards` returns exactly 40 cards; each of the 20 (suit, rank)
combinations over the four suits and five ranks appears exactly twice; and a
card is trump exactly when its suit is diamonds or it is the queen of clubs. -/
theorem C6_create_cards_deck_invariant :
    create_cards.length = 40 ∧
    (suits.all (fun s => ranksValues.all (fun rv =>
      (create_cards.filter (fun c => c.suit == s && c.rank == rv.1)).length == 2))) = true ∧
    (create_cards.all (fun c =>
      c.is_trump == (c.suit == "diamonds" || (c.suit == "clubs" && c.rank == "queen")))) = true := by
  decide

/-! ### C2: dealing is not a partition of the deck -/

/-- C2 (code bug): on the 4-card deck `deck4` and two players, the services
revision of `distribute_cards` hands out the overlapping slices
`cards[0:2]` and `cards[1:3]`: the second card is dealt to both players, the
last card is dealt to nobody, and concatenating the hands in player order does
not reconstruct the deck.  (The intended slices, implemented by the backend
revision, are `cards[i*share:(i+1)*share]`.) -/
theorem C2_distribute_cards_not_a_partition :
    distribute_cards deck4 playersXY = [("x", [cHA, cHT]), ("y", [cHT, cSA])] ∧
    (distribute_cards deck4 playersXY).foldl (fun acc kv => acc ++ kv.2) [] ≠ deck4 ∧
    deck4.length % playersXY.length = 0 ∧ deck4 ≠ [] ∧ playersXY ≠ [] := by
  decide

/-! ### C3: advancing a closed table is a no-op -/

/-- C3: `play_round` (one step of `play_table_rounds`) returns a table whose
status is "closed" completely unchanged: no round appended, no field modified. -/
theorem C3_play_round_closed_noop (rc : RandChoices) (t : Table) (i : Nat)
    (h : t.status = "closed") : play_round rc t i = t := by
  simp [play_round, h]

theorem C3_play_round_closed_noop_witness :
    closedTable.status = "closed" ∧ play_round rc0 closedTable 0 = closedTable :=
  ⟨rfl, C3_play_round_closed_noop rc0 closedTable 0 rfl⟩

/-! ### C7: an exhausted hand is silently skipped, never an error -/

/-- C7 (counterexample to the claim): at the concrete state `gExhausted`, whose
current (required) player "a" has an empty hand, `play_trick` returns the state
unchanged.  It does not fail: no `HandExhaustedError` (or any other exception
type) exists anywhere in the repository, and the source's early
`if not player_cards: return game` silently skips instead of raising. -/
theorem C7_counterexample_trick_returns_state_without_error :
    handsGet gExhausted.cards gExhausted.current_player = [] ∧
    play_trick gExhausted 0 = gExhausted := by
  decide

/-- C7 (amended): whenever the current player's hand is empty, `play_trick` is
a silent no-op returning the game state unchanged — it never raises. -/
theorem C7_play_trick_empty_hand_noop (g : Game) (i : Nat)
    (h : handsGet g.cards g.current_player = []) : play_trick g i = g := by
  simp [play_trick, h]

theorem C7_play_trick_empty_hand_noop_witness :
    handsGet gExhausted.cards gExhausted.current_player = [] ∧
    play_trick gExhausted 3 = gExhausted :=
  ⟨by decide, C7_play_trick_empty_hand_noop gExhausted 3 (by decide)⟩

/-! ### C9: scores are a constant, not computed from the tricks -/

/-- C9 (counterexample to the claim): in the concrete completed round `round0`
(produced by `gameflow` on `table0` with identity shuffle), no announcements
were made and the cards recorded in the trick history are worth 240 points in
total, yet the round's final score sums to 2 + 1 = 3.  No assignment of the
tricks' cards to the two teams can make per-team card-point sums total 3, so
the score is not computed from the trick history. -/
theorem C9_counterexample_score_independent_of_tricks :
    round0.phase = "complete" ∧
    round0.announcements = [] ∧
    trickPointsTotal round0 = 240 ∧
    round0.final_score = [("re", 2), ("kontra", 1)] ∧
    round0.final_score.foldl (fun acc kv => acc + kv.2) 0 = 3 := by
  decide

/-- C9 (amended): `calculate_round_score` ignores its argument and always
returns the constant map `{re: 2, kontra: 1}`; `finalize_game` installs this
constant as both `score` and `final_score`, so the recorded scores are
independent of the trick history. -/
theorem C9_round_score_is_constant (g : Game) (now : Nat) :
    calculate_round_score g = [("re", 2), ("kontra", 1)] ∧
    (finalize_game now g).score = [("re", 2), ("kontra", 1)] ∧
    (finalize_game now g).final_score = [("re", 2), ("kontra", 1)] ∧
    calculate_round_score g = calculate_round_score { g with tricks := [] } :=
  ⟨rfl, rfl, rfl, rfl⟩

/-! ### C10: gameflow only appends a round and updates the status -/

/-- C10: `gameflow` leaves `tablename`, `players` and `num_rounds` untouched
and replaces `rounds` by the input rounds with exactly the new round appended. -/
theorem C10_gameflow_frame (rc : RandChoices) (t : Table) :
    (gameflow rc t).tablename = t.tablename ∧
    (gameflow rc t).players = t.players ∧
    (gameflow rc t).num_rounds = t.num_rounds ∧
    ∃ g, (gameflow rc t).rounds = t.rounds ++ [g] :=
  ⟨rfl, rfl, rfl, ⟨_, rfl⟩⟩

/-! ### Association-list (dict) lemmas -/

theorem handsGet_cons (a : String × List Card) (d : Hands) (k : String) :
    handsGet (a :: d) k = if a.1 == k then a.2 else handsGet d k := by
  by_cases h : (a.1 == k) = true <;>
    simp [handsGet, dictGet, List.find?_cons, h]

theorem handsGet_map_set_self (d : Hands) (k : String) (v : List Card)
    (h : d.any (fun kv => kv.1 == k) = true) :
    handsGet (d.map (fun kv => if kv.1 == k then (k, v) else kv)) k = v := by
  induction d with
  | nil => simp at h
  | cons a d ih =>
    by_cases ha : (a.1 == k) = true
    · rw [List.map_cons, if_pos ha, handsGet_cons]
      simp
    · rw [List.map_cons, if_neg ha, handsGet_cons, if_neg ha]
      exact ih (by simpa [ha] using h)

theorem handsGet_map_set_ne (d : Hands) (k q : String) (v : List Card) (hne : q ≠ k) :
    handsGet (d.map (fun kv => if kv.1 == k then (k, v) else kv)) q = handsGet d q := by
  have hkq : (k == q) = false := by simpa using Ne.symm hne
  induction d with
  | nil => rfl
  | cons a d ih =>
    by_cases ha : (a.1 == k) = true
    · have ha2 : a.1 = k := by simpa using ha
      rw [List.map_cons, if_pos ha, handsGet_cons, handsGet_cons, ha2, hkq]
      simpa [hkq] using ih
    · rw [List.map_cons, if_neg ha, handsGet_cons, handsGet_cons]
      by_cases haq : (a.1 == q) = true
      · rw [if_pos haq, if_pos haq]
      · rw [if_neg haq, if_neg haq]
        exact ih

theorem handsGet_append_self (d : Hands) (k : String) (v : List Card)
    (h : ¬ d.any (fun kv => kv.1 == k) = true) :
    handsGet (d ++ [(k, v)]) k = v := by
  induction d with
  | nil => simp [handsGet_cons, handsGet, dictGet]
  | cons a d ih =>
    rw [Bool.not_eq_true, List.any_eq_false] at h
    have ha : (a.1 == k) = false := by simpa using h a (by simp)
    rw [List.cons_append, handsGet_cons, ha]
    simp only [Bool.false_eq_true, if_false]
    refine ih ?_
    rw [Bool.not_eq_true, List.any_eq_false]
    intro x hx
    exact h x (by simp [hx])

theorem handsGet_append_ne (d : Hands) (k q : String) (v : List Card) (hne : q ≠ k) :
    handsGet (d ++ [(k, v)]) q = handsGet d q := by
  have hkq : (k == q) = false := by simpa using Ne.symm hne
  induction d with
  | nil => simp [handsGet_cons, handsGet, dictGet, hkq]
  | cons a d ih =>
    rw [List.cons_append, handsGet_cons, handsGet_cons]
    by_cases haq : (a.1 == q) = true
    · rw [if_pos haq, if_pos haq]
    · rw [if_neg haq, if_neg haq]
      exact ih

theorem handsGet_dictSet_self (d : Hands) (k : String) (v : List Card) :
    handsGet (dictSet d k v) k = v := by
  by_cases h : d.any (fun kv => kv.1 == k) = true
  · rw [dictSet, if_pos h]
    exact handsGet_map_set_self d k v h
  · rw [dictSet, if_neg (by simpa using h)]
    exact handsGet_append_self d k v h

theorem handsGet_dictSet_ne (d : Hands) (k q : String) (v : List Card) (hne : q ≠ k) :
    handsGet (dictSet d k v) q = handsGet d q := by
  by_cases h : d.any (fun kv => kv.1 == k) = true
  · rw [dictSet, if_pos h]
    exact handsGet_map_set_ne d k q v hne
  · rw [dictSet, if_neg (by simpa using h)]
    exact handsGet_append_ne d k q v hne

/-! ### The trick loop -/

theorem foldl_trickStep_untouched (order : List String) (t0 : List TrickEntry) (hands : Hands)
    (q : String) (hq : q ∉ order) :
    handsGet (order.foldl trickStep (t0, hands)).2 q = handsGet hands q := by
  induction order generalizing t0 hands with
  | nil => rfl
  | cons p rest ih =>
    have hqp : q ≠ p := fun e => hq (by simp [e])
    have hqr : q ∉ rest := fun m => hq (by simp [m])
    rw [List.foldl_cons]
    cases hc : handsGet hands p with
    | nil =>
      rw [show trickStep (t0, hands) p = (t0, hands) by simp [trickStep, hc]]
      exact ih t0 hands hqr
    | cons c r =>
      rw [show trickStep (t0, hands) p
            = (t0 ++ [{ player := p, card := c }], dictSet hands p r) by simp [trickStep, hc]]
      rw [ih _ _ hqr]
      exact handsGet_dictSet_ne hands p q r hqp

theorem foldl_trickStep_spec (order : List String) (t0 : List TrickEntry) (hands : Hands)
    (hnd : order.Nodup) (hne : ∀ p ∈ order, handsGet hands p ≠ []) :
    (order.foldl trickStep (t0, hands)).1.map TrickEntry.player
        = t0.map TrickEntry.player ++ order ∧
    ∀ p ∈ order, (handsGet (order.foldl trickStep (t0, hands)).2 p).length + 1
        = (handsGet hands p).length := by
  induction order generalizing t0 hands with
  | nil => simp
  | cons p rest ih =>
    obtain ⟨hp, hndr⟩ := List.nodup_cons.mp hnd
    cases hc : handsGet hands p with
    | nil => exact absurd hc (hne p (by simp))
    | cons c r =>
      rw [List.foldl_cons,
        show trickStep (t0, hands) p
          = (t0 ++ [{ player := p, card := c }], dictSet hands p r) by simp [trickStep, hc]]
      have hne1 : ∀ q ∈ rest, handsGet (dictSet hands p r) q ≠ [] := by
        intro q hq
        rw [handsGet_dictSet_ne hands p q r (by rintro rfl; exact hp hq)]
        exact hne q (by simp [hq])
      obtain ⟨ih1, ih2⟩ := ih (t0 ++ [{ player := p, card := c }]) (dictSet hands p r) hndr hne1
      refine ⟨by rw [ih1]; simp, ?_⟩
      intro q hq
      by_cases hqp : q = p
      · rw [hqp, foldl_trickStep_untouched rest _ (dictSet hands p r) p hp,
          handsGet_dictSet_self, hc]
        simp
      · have hq2 : q ∈ rest := by
          rcases List.mem_cons.mp hq with h | h
          · exact absurd h hqp
          · exact h
        rw [← handsGet_dictSet_ne hands p q r hqp]
        exact ih2 q hq2

theorem foldl_trickStep_conservation (order : List String) (t0 : List TrickEntry) (hands : Hands)
    (hnd : order.Nodup) :
    (order.foldl trickStep (t0, hands)).1.length
        + handsSum (order.foldl trickStep (t0, hands)).2 order
      = t0.length + handsSum hands order := by
  induction order generalizing t0 hands with
  | nil => simp [handsSum]
  | cons p rest ih =>
    obtain ⟨hp, hndr⟩ := List.nodup_cons.mp hnd
    rw [List.foldl_cons]
    cases hc : handsGet hands p with
    | nil =>
      rw [show trickStep (t0, hands) p = (t0, hands) by simp [trickStep, hc]]
      have hsf := foldl_trickStep_untouched rest t0 hands p hp
      have hrec := ih t0 hands hndr
      simp only [handsSum, List.map_cons, List.sum_cons] at hrec ⊢
      rw [hsf, hc]
      omega
    | cons c r =>
      rw [show trickStep (t0, hands) p
          = (t0 ++ [{ player := p, card := c }], dictSet hands p r) by simp [trickStep, hc]]
      have hsf := foldl_trickStep_untouched rest (t0 ++ [{ player := p, card := c }])
        (dictSet hands p r) p hp
      have hrec := ih (t0 ++ [{ player := p, card := c }]) (dictSet hands p r) hndr
      have hrw : rest.map (fun u => (handsGet (dictSet hands p r) u).length)
          = rest.map (fun u => (handsGet hands u).length) := by
        refine List.map_congr_left ?_
        intro q hq
        rw [handsGet_dictSet_ne hands p q r (by rintro rfl; exact hp hq)]
      simp only [handsSum, List.map_cons, List.sum_cons, List.length_append,
        List.length_cons] at hrec ⊢
      rw [hsf, handsGet_dictSet_self, hc, hrw] at *
      simp at hrec ⊢
      omega

/-! ### Rotation -/

theorem rotateAt_perm (l : List String) (x : String) : (rotateAt l x).Perm l := by
  rw [rotateAt]
  have h : (l.drop (l.indexOf x) ++ l.take (l.indexOf x)).Perm
      (l.take (l.indexOf x) ++ l.drop (l.indexOf x)) := List.perm_append_comm
  rwa [List.take_append_drop] at h

/-! ### Single trick step -/

theorem play_trick_players (g : Game) (i : Nat) : (play_trick g i).players = g.players := by
  rw [play_trick]
  split <;> rfl

theorem play_trick_spec (g : Game) (i n : Nat)
    (hnd : (g.players.map Player.uuid).Nodup)
    (hcur : g.current_player ∈ g.players.map Player.uuid)
    (hlen : ∀ u ∈ g.players.map Player.uuid, (handsGet g.cards u).length = n + 1) :
    (play_trick g i).current_player ∈ g.players.map Player.uuid ∧
    (∀ u ∈ g.players.map Player.uuid, (handsGet (play_trick g i).cards u).length = n) ∧
    ∃ trick, (play_trick g i).tricks = g.tricks ++ [trick] ∧
      (trick.map TrickEntry.player).Perm (g.players.map Player.uuid) := by
  have hcne : ¬ (handsGet g.cards g.current_player).isEmpty = true := by
    have hl := hlen g.current_player hcur
    cases hx : handsGet g.cards g.current_player with
    | nil => rw [hx] at hl; simp at hl
    | cons a b => simp
  have hordperm : (trickOrder g).Perm (g.players.map Player.uuid) :=
    rotateAt_perm (g.players.map Player.uuid) g.current_player
  have hordnd : (trickOrder g).Nodup := hordperm.nodup_iff.mpr hnd
  have hne : ∀ p ∈ trickOrder g, handsGet g.cards p ≠ [] := by
    intro p hpm
    have hl := hlen p (hordperm.mem_iff.mp hpm)
    intro e
    rw [e] at hl
    simp at hl
  obtain ⟨hmap, hlens⟩ := foldl_trickStep_spec (trickOrder g) [] g.cards hordnd hne
  rw [play_trick, if_neg hcne]
  refine ⟨?_, ?_, ?_⟩
  · cases hf : (trickOrder g).find? (fun pid => !(handsGet (trickRes g).2 pid).isEmpty) with
    | none => simpa using hcur
    | some pid =>
      have := List.mem_of_find?_eq_some hf
      simpa using hordperm.mem_iff.mp this
  · intro u hu
    have := hlens u (hordperm.mem_iff.mpr hu)
    have hlu := hlen u hu
    simp only [trickRes] at *
    omega
  · refine ⟨(trickRes g).1, rfl, ?_⟩
    have : (trickRes g).1.map TrickEntry.player = trickOrder g := by
      simpa [trickRes] using hmap
    rw [this]
    exact hordperm

/-! ### Iterating trick steps -/

theorem foldl_play_trick_spec (l : List Nat) (g : Game) (m : Nat)
    (hnd : (g.players.map Player.uuid).Nodup)
    (hcur : g.current_player ∈ g.players.map Player.uuid)
    (hlen : ∀ u ∈ g.players.map Player.uuid, (handsGet g.cards u).length = l.length + m) :
    (l.foldl play_trick g).players = g.players ∧
    (l.foldl play_trick g).current_player ∈ g.players.map Player.uuid ∧
    (∀ u ∈ g.players.map Player.uuid, (handsGet (l.foldl play_trick g).cards u).length = m) ∧
    ∃ ts, (l.foldl play_trick g).tricks = g.tricks ++ ts ∧ ts.length = l.length ∧
      ∀ t ∈ ts, (t.map TrickEntry.player).Perm (g.players.map Player.uuid) := by
  induction l generalizing g with
  | nil =>
    refine ⟨rfl, hcur, by simpa using hlen, [], by simp, rfl, by simp⟩
  | cons i rest ih =>
    have hlen1 : ∀ u ∈ g.players.map Player.uuid,
        (handsGet g.cards u).length = (rest.length + m) + 1 := by
      intro u hu
      have := hlen u hu
      simp only [List.length_cons] at this
      omega
    obtain ⟨hc1, hl1, tr, htr, hperm⟩ := play_trick_spec g i (rest.length + m) hnd hcur hlen1
    have hpl : (play_trick g i).players = g.players := play_trick_players g i
    rw [List.foldl_cons]
    obtain ⟨ih1, ih2, ih3, ts, hts, htsl, htsp⟩ :=
      ih (play_trick g i) (by rwa [hpl]) (by rwa [hpl]) (by rw [hpl]; exact hl1)
    refine ⟨by rw [ih1, hpl], by rwa [hpl] at ih2, by rw [hpl] at ih3; exact ih3, ?_⟩
    refine ⟨tr :: ts, ?_, by simp [htsl], ?_⟩
    · rw [hts, htr]
      simp
    · intro t ht
      rcases List.mem_cons.mp ht with rfl | ht2
      · exact hperm
      · have := htsp t ht2
        rwa [hpl] at this

/-! ### Dealing -/

theorem handsGet_distribute_go (cards : List Card) (share : Nat) (ps : List Player) (i : Nat)
    (u : String) (hu : u ∈ ps.map Player.uuid) :
    ∃ j, j < ps.length ∧
      handsGet (distribute_go cards share i ps) u = (cards.drop (i + j)).take share := by
  induction ps generalizing i with
  | nil => simp at hu
  | cons p rest ih =>
    rw [distribute_go, handsGet_cons]
    rw [List.map_cons] at hu
    by_cases h : (p.uuid == u) = true
    · refine ⟨0, by simp, ?_⟩
      rw [if_pos h]
      simp
    · have hu2 : u ∈ rest.map Player.uuid := by
        rcases List.mem_cons.mp hu with h2 | h2
        · exact absurd (by simp [h2]) h
        · exact h2
      obtain ⟨j, hj, he⟩ := ih (i + 1) hu2
      refine ⟨j + 1, by simpa using Nat.succ_lt_succ hj, ?_⟩
      rw [if_neg h, he]
      have harith : i + 1 + j = i + (j + 1) := by omega
      rw [harith]

theorem handsGet_distribute_cards_len (cards : List Card) (ps : List Player)
    (hc : cards.length = 40) (hp : ps.length = 4) (u : String) (hu : u ∈ ps.map Player.uuid) :
    (handsGet (distribute_cards cards ps) u).length = 10 := by
  have hpe : ps.isEmpty = false := by
    cases ps with
    | nil => simp at hp
    | cons a b => rfl
  have hce : cards.isEmpty = false := by
    cases cards with
    | nil => simp at hc
    | cons a b => rfl
  rw [distribute_cards, hpe, hce]
  simp only [Bool.or_self, Bool.false_eq_true, if_neg, if_false]
  obtain ⟨j, hj, he⟩ := handsGet_distribute_go cards (cards.length / ps.length) ps 0 u hu
  rw [he, hc, hp]
  simp only [List.length_take, List.length_drop, hc]
  rw [hp] at hj
  omega

/-! ### Round-level facts -/

theorem round_before_tricks_players (rc : RandChoices) (ps : List Player) :
    (round_before_tricks rc ps).players = ps := rfl

theorem round_before_tricks_cards (rc : RandChoices) (ps : List Player) :
    (round_before_tricks rc ps).cards = distribute_cards rc.shuffled ps := rfl

theorem round_after_tricks_succ (rc : RandChoices) (ps : List Player) (n : Nat) :
    round_after_tricks rc ps (n + 1) = play_trick (round_after_tricks rc ps n) n := by
  rw [round_after_tricks, round_after_tricks, List.range_succ, List.foldl_append, List.foldl_cons,
    List.foldl_nil]

theorem round_after_tricks_players (rc : RandChoices) (ps : List Player) (k : Nat) :
    (round_after_tricks rc ps k).players = ps := by
  induction k with
  | zero => rfl
  | succ n ih => rw [round_after_tricks_succ, play_trick_players, ih]

/-! ### C1: ten tricks of four cards, one per player -/

/-- C1: a round produced by `gameflow` on a table of four players with distinct
uuids (each dealt 10 of the 40 shuffled cards) records exactly 10 tricks, each
holding exactly 4 (player, card) entries with every player appearing exactly
once. -/
theorem C1_completed_round_trick_structure (rc : RandChoices) (t : Table)
    (h4 : t.players.length = 4)
    (hnd : (t.players.map Player.uuid).Nodup)
    (hfirst : rc.first_uuid ∈ t.players.map Player.uuid)
    (hshuf : rc.shuffled.Perm create_cards) :
    ∃ g, (gameflow rc t).rounds = t.rounds ++ [g] ∧
      g.tricks.length = 10 ∧
      ∀ trick ∈ g.tricks, trick.length = 4 ∧
        ∀ u ∈ t.players.map Player.uuid,
          (trick.filter (fun e => e.player == u)).length = 1 := by
  have hlen40 : rc.shuffled.length = 40 := by rw [hshuf.length_eq, create_cards_length]
  have hhl : ∀ u ∈ ({ round_before_tricks rc t.players with phase := "playing" } : Game).players.map
        Player.uuid,
      (handsGet ({ round_before_tricks rc t.players with phase := "playing" } : Game).cards u).length
        = (List.range 10).length + 0 := by
    intro u hu
    simpa using handsGet_distribute_cards_len rc.shuffled t.players hlen40 h4 u hu
  obtain ⟨hp, hc, hl, ts, hts, htsl, htsp⟩ :=
    foldl_play_trick_spec (List.range 10)
      { round_before_tricks rc t.players with phase := "playing" } 0 hnd hfirst hhl
  have hgps : ({ round_before_tricks rc t.players with phase := "playing" } : Game).players
      = t.players := rfl
  rw [hgps] at htsp
  have hpat : play_all_tricks (round_before_tricks rc t.players)
      = (List.range 10).foldl play_trick
          { round_before_tricks rc t.players with phase := "playing" } := rfl
  have hfin : ∀ g0 : Game, (finalize_game rc.now g0).tricks = g0.tricks := fun g0 => rfl
  have htr0 : ({ round_before_tricks rc t.players with phase := "playing" } : Game).tricks = [] :=
    rfl
  rw [htr0] at hts
  refine ⟨finalize_game rc.now (play_all_tricks (round_before_tricks rc t.players)), rfl, ?_, ?_⟩
  · rw [hfin, hpat, hts]
    simpa using htsl
  · intro trick htk
    rw [hfin, hpat, hts] at htk
    have htk2 : trick ∈ ts := by simpa using htk
    have hperm := htsp trick htk2
    constructor
    · have hle := hperm.length_eq
      simp only [List.length_map] at hle
      rw [h4] at hle
      exact hle
    · intro u hu
      have hcount : (trick.map TrickEntry.player).count u = 1 := by
        rw [hperm.count_eq]
        exact List.count_eq_one_of_mem hnd hu
      rw [← List.countP_eq_length_filter]
      rw [List.count, List.countP_map] at hcount
      exact hcount

theorem C1_completed_round_trick_structure_witness :
    table0.players.length = 4 ∧
    (table0.players.map Player.uuid).Nodup ∧
    rc0.first_uuid ∈ table0.players.map Player.uuid ∧
    rc0.shuffled.Perm create_cards ∧
    (∃ g, (gameflow rc0 table0).rounds = table0.rounds ++ [g] ∧
      g.tricks.length = 10 ∧
      ∀ trick ∈ g.tricks, trick.length = 4 ∧
        ∀ u ∈ table0.players.map Player.uuid,
          (trick.filter (fun e => e.player == u)).length = 1) :=
  ⟨by decide, by decide, by decide, List.Perm.refl _,
    C1_completed_round_trick_structure rc0 table0 (by decide) (by decide) (by decide)
      (List.Perm.refl _)⟩

/-! ### C4: card conservation -/

theorem sum_map_const_of (l : List String) (f : String → Nat) (c : Nat)
    (h : ∀ u ∈ l, f u = c) : (l.map f).sum = c * l.length := by
  induction l with
  | nil => simp
  | cons a t ih =>
    simp only [List.map_cons, List.sum_cons, List.length_cons]
    rw [h a (by simp), ih (fun u hu => h u (by simp [hu]))]
    ring

theorem play_trick_total (g : Game) (i : Nat)
    (hnd : (g.players.map Player.uuid).Nodup) :
    handsTotal (play_trick g i) + tricksTotal (play_trick g i)
      = handsTotal g + tricksTotal g := by
  by_cases hce : (handsGet g.cards g.current_player).isEmpty = true
  · rw [play_trick, if_pos hce]
  · rw [play_trick, if_neg hce]
    have hordperm : (trickOrder g).Perm (g.players.map Player.uuid) :=
      rotateAt_perm (g.players.map Player.uuid) g.current_player
    have hordnd : (trickOrder g).Nodup := hordperm.nodup_iff.mpr hnd
    have hcons := foldl_trickStep_conservation (trickOrder g) [] g.cards hordnd
    rw [show (trickOrder g).foldl trickStep ([], g.cards) = trickRes g from rfl] at hcons
    simp only [List.length_nil, Nat.zero_add] at hcons
    have hs1 : handsSum (trickRes g).2 (trickOrder g)
        = handsSum (trickRes g).2 (g.players.map Player.uuid) :=
      (hordperm.map (fun u => (handsGet (trickRes g).2 u).length)).sum_eq
    have hs2 : handsSum g.cards (trickOrder g)
        = handsSum g.cards (g.players.map Player.uuid) :=
      (hordperm.map (fun u => (handsGet g.cards u).length)).sum_eq
    have hh1 : handsTotal { g with
        tricks := g.tricks ++ [(trickRes g).1]
        cards := (trickRes g).2
        current_player :=
          ((trickOrder g).find? (fun pid => !(handsGet (trickRes g).2 pid).isEmpty)).getD
            g.current_player }
        = handsSum (trickRes g).2 (g.players.map Player.uuid) := rfl
    have hh2 : tricksTotal { g with
        tricks := g.tricks ++ [(trickRes g).1]
        cards := (trickRes g).2
        current_player :=
          ((trickOrder g).find? (fun pid => !(handsGet (trickRes g).2 pid).isEmpty)).getD
            g.current_player }
        = tricksTotal g + (trickRes g).1.length := by
      simp [tricksTotal]
    rw [hh1, hh2, handsTotal]
    omega

theorem round_after_tricks_total (rc : RandChoices) (ps : List Player)
    (hnd : (ps.map Player.uuid).Nodup) (k : Nat) :
    handsTotal (round_after_tricks rc ps k) + tricksTotal (round_after_tricks rc ps k)
      = handsTotal (round_after_tricks rc ps 0) + tricksTotal (round_after_tricks rc ps 0) := by
  induction k with
  | zero => rfl
  | succ n ih =>
    rw [round_after_tricks_succ,
      play_trick_total (round_after_tricks rc ps n) n
        (by rw [round_after_tricks_players]; exact hnd)]
    exact ih

/-- C4: after dealing (and through the variant and poverty phases), and after
each of the 10 trick steps, the cards remaining in the four hands plus the
cards recorded in completed tricks total 40. -/
theorem C4_card_conservation (rc : RandChoices) (t : Table)
    (h4 : t.players.length = 4)
    (hnd : (t.players.map Player.uuid).Nodup)
    (hshuf : rc.shuffled.Perm create_cards) :
    handsTotal (round_before_tricks rc t.players)
        + tricksTotal (round_before_tricks rc t.players) = 40 ∧
    ∀ k, k ≤ 10 →
      handsTotal (round_after_tricks rc t.players k)
          + tricksTotal (round_after_tricks rc t.players k) = 40 := by
  have hlen40 : rc.shuffled.length = 40 := by rw [hshuf.length_eq, create_cards_length]
  have hbase : handsTotal (round_before_tricks rc t.players)
      + tricksTotal (round_before_tricks rc t.players) = 40 := by
    have htr0 : tricksTotal (round_before_tricks rc t.players) = 0 := rfl
    have hht : handsTotal (round_before_tricks rc t.players)
        = ((t.players.map Player.uuid).map
            (fun u => (handsGet (distribute_cards rc.shuffled t.players) u).length)).sum := rfl
    rw [htr0, hht, sum_map_const_of _ _ 10
      (fun u hu => handsGet_distribute_cards_len rc.shuffled t.players hlen40 h4 u hu)]
    rw [List.length_map, h4]
  refine ⟨hbase, ?_⟩
  intro k _
  rw [round_after_tricks_total rc t.players hnd k]
  have h0 : handsTotal (round_after_tricks rc t.players 0)
      = handsTotal (round_before_tricks rc t.players) := rfl
  have h0t : tricksTotal (round_after_tricks rc t.players 0)
      = tricksTotal (round_before_tricks rc t.players) := rfl
  rw [h0, h0t, hbase]

theorem C4_card_conservation_witness :
    table0.players.length = 4 ∧
    (table0.players.map Player.uuid).Nodup ∧
    rc0.shuffled.Perm create_cards ∧
    (handsTotal (round_before_tricks rc0 table0.players)
        + tricksTotal (round_before_tricks rc0 table0.players) = 40 ∧
      ∀ k, k ≤ 10 →
        handsTotal (round_after_tricks rc0 table0.players k)
            + tricksTotal (round_after_tricks rc0 table0.players k) = 40) :=
  ⟨by decide, by decide, List.Perm.refl _,
    C4_card_conservation rc0 table0 (by decide) (by decide) (List.Perm.refl _)⟩

/-! ### C5: closed status vs round count -/

theorem gameflow_status (rc : RandChoices) (t : Table) :
    (gameflow rc t).status
      = if t.rounds.length + 1 < numRounds t then "waiting" else "closed" := rfl

theorem gameflow_rounds_length (rc : RandChoices) (t : Table) :
    (gameflow rc t).rounds.length = t.rounds.length + 1 := by
  rw [show (gameflow rc t).rounds
      = t.rounds ++ [finalize_game rc.now (play_all_tricks (round_before_tricks rc t.players))]
    from rfl]
  simp

theorem gameflow_numRounds (rc : RandChoices) (t : Table) :
    numRounds (gameflow rc t) = numRounds t := rfl

theorem gameflow_status_iff (rc : RandChoices) (t : Table) :
    (gameflow rc t).status = "closed" ↔ numRounds t ≤ (gameflow rc t).rounds.length := by
  rw [gameflow_status, gameflow_rounds_length]
  by_cases h : t.rounds.length + 1 < numRounds t
  · rw [if_pos h]
    constructor
    · intro he
      exact absurd he (by decide)
    · intro hle
      omega
  · rw [if_neg h]
    constructor
    · intro _
      omega
    · intro _
      rfl

theorem advanceK_succ (rcs : Nat → RandChoices) (t : Table) (k : Nat) :
    advanceK rcs t (k + 1) = play_round (rcs k) (advanceK rcs t k) k := by
  rw [advanceK, advanceK, List.range_succ, List.foldl_append, List.foldl_cons, List.foldl_nil]

theorem play_round_numRounds (rc : RandChoices) (t : Table) (i : Nat) :
    numRounds (play_round rc t i) = numRounds t := by
  rw [play_round]
  split
  · rfl
  · exact gameflow_numRounds rc t

theorem advanceK_numRounds (rcs : Nat → RandChoices) (t : Table) (k : Nat) :
    numRounds (advanceK rcs t k) = numRounds t := by
  induction k with
  | zero => rfl
  | succ n ih => rw [advanceK_succ, play_round_numRounds, ih]

/-- C5: for tables produced by at least one advance step from a non-closed
table, the status is "closed" exactly when the accumulated rounds reach the
configured round count; and a fresh table configured for 3 rounds is still open
with 2 rounds after 2 advances and closed after the 3rd. -/
theorem C5_closed_iff_round_count (rcs : Nat → RandChoices) (t : Table)
    (ht : t.status ≠ "closed") :
    (∀ k, 1 ≤ k →
      ((advanceK rcs t k).status = "closed"
        ↔ numRounds t ≤ (advanceK rcs t k).rounds.length)) ∧
    (t.rounds = [] → t.num_rounds = some 3 →
      (advanceK rcs t 2).status ≠ "closed" ∧ (advanceK rcs t 2).rounds.length = 2 ∧
      (advanceK rcs t 3).status = "closed") := by
  constructor
  · intro k
    induction k with
    | zero => intro h; omega
    | succ n ih =>
      intro _
      rw [advanceK_succ]
      by_cases hs : (advanceK rcs t n).status = "closed"
      · cases n with
        | zero => exact absurd hs ht
        | succ m =>
          rw [play_round, if_pos (by simp [hs])]
          exact ih (by omega)
      · rw [play_round, if_neg (by simp [hs])]
        have hiff := gameflow_status_iff (rcs n) (advanceK rcs t n)
        rwa [show numRounds (advanceK rcs t n) = numRounds t from advanceK_numRounds rcs t n]
          at hiff
  · intro h0 h3
    have hnum : numRounds t = 3 := by rw [numRounds, h3]; rfl
    have e1 : advanceK rcs t 1 = gameflow (rcs 0) t := by
      rw [advanceK_succ, show advanceK rcs t 0 = t from rfl, play_round, if_neg (by simp [ht])]
    have hst1 : (gameflow (rcs 0) t).status = "waiting" := by
      rw [gameflow_status, h0, hnum]
      simp
    have hlen1 : (gameflow (rcs 0) t).rounds.length = 1 := by
      rw [gameflow_rounds_length, h0]
      simp
    have e2 : advanceK rcs t 2 = gameflow (rcs 1) (gameflow (rcs 0) t) := by
      rw [advanceK_succ, e1, play_round, if_neg (by simp [hst1])]
    have hnum1 : numRounds (gameflow (rcs 0) t) = 3 := by
      rw [gameflow_numRounds, hnum]
    have hst2 : (advanceK rcs t 2).status = "waiting" := by
      rw [e2, gameflow_status, hlen1, hnum1]
      simp
    have hlen2 : (advanceK rcs t 2).rounds.length = 2 := by
      rw [e2, gameflow_rounds_length, hlen1]
    refine ⟨by rw [hst2]; decide, hlen2, ?_⟩
    have e3 : advanceK rcs t 3 = gameflow (rcs 2) (advanceK rcs t 2) := by
      rw [advanceK_succ, play_round, if_neg (by simp [hst2])]
    have hnum2 : numRounds (advanceK rcs t 2) = 3 := by
      rw [advanceK_numRounds, hnum]
    rw [e3, gameflow_status, hlen2, hnum2]
    simp

theorem C5_closed_iff_round_count_witness :
    table3.status ≠ "closed" ∧
    ((advanceK rcs0 table3 2).status ≠ "closed" ∧ (advanceK rcs0 table3 2).rounds.length = 2 ∧
      (advanceK rcs0 table3 3).status = "closed") :=
  ⟨by decide, (C5_closed_iff_round_count rcs0 table3 (by decide)).2 rfl rfl⟩

/-! ### C8: team assignment counts -/

theorem countP_pair (l : List String) (a b : String) (hab : a ≠ b) :
    l.countP (fun u => u == a || u == b) = l.count a + l.count b := by
  induction l with
  | nil => simp
  | cons x t ih =>
    rw [List.countP_cons, List.count_cons, List.count_cons, ih]
    rcases eq_or_ne x a with rfl | hxa
    · have hxb : ¬ x = b := hab
      simp [hxb]
      omega
    · rcases eq_or_ne x b with rfl | hxb
      · simp [hxa]
        omega
      · simp [hxa, hxb]

theorem countP_not_split (l : List String) (p : String → Bool) :
    l.countP p + l.countP (fun u => !(p u)) = l.length := by
  induction l with
  | nil => rfl
  | cons x t ih =>
    by_cases hx : p x = true <;> simp [List.countP_cons, hx] <;> omega

theorem teams_filter_re (l : List String) (a b : String) :
    ((l.map (fun u => (u, if u == a || u == b then "re" else "kontra"))).filter
        (fun kv => kv.2 == "re")).length
      = l.countP (fun u => u == a || u == b) := by
  induction l with
  | nil => rfl
  | cons x t ih =>
    by_cases hx : (x == a || x == b) = true
    · rw [List.map_cons, if_pos hx, List.filter_cons, if_pos (by simp), List.length_cons, ih,
        List.countP_cons, if_pos hx]
    · rw [List.map_cons, if_neg hx, List.filter_cons, if_neg (by simp), ih, List.countP_cons,
        if_neg hx]
      omega

theorem teams_filter_kontra (l : List String) (a b : String) :
    ((l.map (fun u => (u, if u == a || u == b then "re" else "kontra"))).filter
        (fun kv => kv.2 == "kontra")).length
      = l.countP (fun u => !(u == a || u == b)) := by
  induction l with
  | nil => rfl
  | cons x t ih =>
    by_cases hx : (x == a || x == b) = true
    · rw [List.map_cons, if_pos hx, List.filter_cons, if_neg (by simp), ih, List.countP_cons,
        if_neg (by simp [hx])]
      omega
    · rw [List.map_cons, if_neg hx, List.filter_cons, if_pos (by simp), List.length_cons, ih,
        List.countP_cons, if_pos (by simp [hx])]

theorem teams_no_unknown (l : List String) (a b : String) :
    (l.map (fun u => (u, if u == a || u == b then "re" else "kontra"))).all
      (fun kv => kv.2 != "unknown") = true := by
  rw [List.all_eq_true]
  intro kv hkv
  obtain ⟨u, hu, rfl⟩ := List.mem_map.mp hkv
  by_cases hx : (u == a || u == b) = true
  · rw [if_pos hx]
    rfl
  · rw [if_neg hx]
    rfl

/-- C8 (amended): `assign_teams` performs no player-count validation, but on a
list of exactly 4 players with distinct uuids it marks the two sampled uuids
"re" and the remaining two "kontra": exactly 2 of each, with no player left
"unknown". -/
theorem C8_assign_teams_two_re_two_kontra (ps : List Player) (a b : String)
    (h4 : ps.length = 4)
    (hnd : (ps.map Player.uuid).Nodup)
    (ha : a ∈ ps.map Player.uuid) (hb : b ∈ ps.map Player.uuid) (hab : a ≠ b) :
    ((assign_teams (a, b) ps).filter (fun kv => kv.2 == "re")).length = 2 ∧
    ((assign_teams (a, b) ps).filter (fun kv => kv.2 == "kontra")).length = 2 ∧
    all_teams_known (assign_teams (a, b) ps) = true := by
  have hdef : assign_teams (a, b) ps
      = (ps.map Player.uuid).map
          (fun u => (u, if u == a || u == b then "re" else "kontra")) := rfl
  have hre : ((assign_teams (a, b) ps).filter (fun kv => kv.2 == "re")).length = 2 := by
    rw [hdef, teams_filter_re, countP_pair _ a b hab,
      List.count_eq_one_of_mem hnd ha, List.count_eq_one_of_mem hnd hb]
  refine ⟨hre, ?_, ?_⟩
  · rw [hdef, teams_filter_kontra]
    have hsplit := countP_not_split (ps.map Player.uuid) (fun u => u == a || u == b)
    have hcp : (ps.map Player.uuid).countP (fun u => u == a || u == b) = 2 := by
      rw [countP_pair _ a b hab,
        List.count_eq_one_of_mem hnd ha, List.count_eq_one_of_mem hnd hb]
    have hlm : (ps.map Player.uuid).length = 4 := by rw [List.length_map, h4]
    omega
  · rw [show all_teams_known (assign_teams (a, b) ps)
        = (assign_teams (a, b) ps).all (fun kv => kv.2 != "unknown") from rfl, hdef]
    exact teams_no_unknown (ps.map Player.uuid) a b

theorem C8_assign_teams_two_re_two_kontra_witness :
    players4.length = 4 ∧
    (players4.map Player.uuid).Nodup ∧
    "a" ∈ players4.map Player.uuid ∧
    "c" ∈ players4.map Player.uuid ∧
    "a" ≠ "c" ∧
    (((assign_teams ("a", "c") players4).filter (fun kv => kv.2 == "re")).length = 2 ∧
      ((assign_teams ("a", "c") players4).filter (fun kv => kv.2 == "kontra")).length = 2 ∧
      all_teams_known (assign_teams ("a", "c") players4) = true) :=
  ⟨by decide, by decide, by decide, by decide, by decide,
    C8_assign_teams_two_re_two_kontra players4 "a" "c" (by decide) (by decide) (by decide)
      (by decide) (by decide)⟩

/-- C8 (counterexample to the claim): `assign_teams` does not fail on a
player list whose length is not 4 — no `InvalidPlayerCountError` exists in the
repository.  On six distinct players with sample ("u1", "u2") it succeeds and
returns a full assignment with 2 "re" and 4 "kontra" players. -/
theorem C8_counterexample_six_players_no_error :
    players6.length = 6 ∧
    assign_teams ("u1", "u2") players6
      = [("u1", "re"), ("u2", "re"), ("u3", "kontra"), ("u4", "kontra"),
         ("u5", "kontra"), ("u6", "kontra")] ∧
    ((assign_teams ("u1", "u2") players6).filter (fun kv => kv.2 == "re")).length = 2 ∧
    ((assign_teams ("u1", "u2") players6).filter (fun kv => kv.2 == "kontra")).length = 4 := by
  decide
